import Mathlib

/-!
Shallow embedding of `src/pyinseq.py` (the pyinseq orchestration script).

The script's `main` is straight-line code plus two `for` loops over the
sample registry; we embed it as a function producing the list of calls
(`Event`s) it issues to its collaborators, in program order.  The only
Python-level exception raised by `main` itself is the `IndexError` from
`reads[-1]` on an empty string in the `--nobarcodes` copy loop; it is
modelled by an error channel on the trace.  Failures of the external
collaborators (trimmer, bowtie, mappers, ...) are modelled by an oracle
`fails : Event → Bool` together with an executor that stops at the first
failing call, matching the absence of any try/except in `main`.
-/

namespace Pyinseq

/-- Python-level exceptions that the embedded code can raise. -/
inductive PyErr where
  | indexError
  deriving Repr, DecidableEq

/-- The parsed command-line arguments (`parseArgs`).  `disruption` is
`none` when the `-d` flag is absent (argparse then supplies the float
default `1.0`); when present, the already-`float()`-converted value is
carried as a rational. -/
structure Args where
  input : String
  samplesFile : String
  experiment : String
  genome : String
  disruption : Option Rat
  nobarcodes : Bool
  deriving Repr, DecidableEq

/-- `float(args.disruption)`: the argparse default is the float `1.0`;
a user-supplied value arrives already converted. -/
def disruptionValue : Option Rat → Rat
  | none => 1
  | some r => r

/-- `'{experiment}/genome_lookup/'` -/
def genomeDirOf (experiment : String) : String :=
  experiment ++ "/genome_lookup/"

/-- `'{experiment}/raw_data/{sampleName}.fastq.gz'` -/
def demultiplexedPath (experiment name : String) : String :=
  experiment ++ "/raw_data/" ++ name ++ ".fastq.gz"

/-- `'{experiment}/{sampleName}_trimmed.fastq'` -/
def trimmedPath (experiment name : String) : String :=
  experiment ++ "/" ++ name ++ "_trimmed.fastq"

/-- Calls `main` issues to its collaborators, with their arguments. -/
inductive Event where
  | samplePrep (samplesFile : String) (barcode_qc : Bool)
  | createDirs (experiment : String)
  | attachPaths (sample demuxPath trimPath : String)
  | copyFile (src dst : String)
  | demultiplex (reads experiment : String)
  | gbk2fna (gbkfile organism genomeDir : String)
  | gbk2ftt (gbkfile organism genomeDir : String)
  | bowtieBuild (organism : String)
  | trimFastq (inPath outPath sample : String) (barcode_length : Nat)
  | bowtieMap (organism bowtie_in bowtie_out : String)
  | removeFile (path : String)
  | mapSites (path : String)
  | mapGenes (organism sample : String) (disruption : Rat) (experiment : String)
  | buildGeneTable (organism experiment : String)
  deriving Repr, DecidableEq

/-- `reads[-1]` in Python: the last character, raising `IndexError` on
the empty string. -/
def pyLastChar (s : String) : Except PyErr Char :=
  match s.data.getLast? with
  | none => .error .indexError
  | some c => .ok c

/-- The `--nobarcodes` copy loop (lines 104-110): for each sample, first
re-normalize the (mutated) `reads` variable to end in a slash — raising
`IndexError` if it is empty — then copy
`reads + sample + '.fastq.gz'` to the sample's demultiplexed path. -/
def copyLoopEvents (experiment : String) :
    String → List String → List Event × Option PyErr
  | _, [] => ([], none)
  | reads, s :: rest =>
    match pyLastChar reads with
    | .error e => ([], some e)
    | .ok c =>
      let reads' := if c ≠ '/' then reads ++ "/" else reads
      let tail := copyLoopEvents experiment reads' rest
      (Event.copyFile (reads' ++ s ++ ".fastq.gz")
          (demultiplexedPath experiment s) :: tail.1,
        tail.2)

/-- One iteration of the per-sample loop (lines 125-143): trim, map with
bowtie (inside `cd genomeDir`), delete the trimmed file, map sites, map
genes. -/
def sampleSeg (experiment : String) (barcode_length : Nat)
    (disruption : Rat) (s : String) : List Event :=
  [ .trimFastq (demultiplexedPath experiment s) (trimmedPath experiment s)
      s barcode_length,
    .bowtieMap "genome" ("../" ++ s ++ "_trimmed.fastq")
      ("../" ++ s ++ "_bowtie.txt"),
    .removeFile (trimmedPath experiment s),
    .mapSites (experiment ++ "/" ++ s ++ "_bowtie.txt"),
    .mapGenes "genome" s disruption experiment ]

/-- Lines 86-100: the `sample_prep` call, the
`createExperimentDirectories` call, and the loop attaching
`demultiplexedPath` and `trimmedPath` to each sample entry, in program
order. -/
def preEvents (samplesFile experiment : String) (qc : Bool)
    (registry : List String) : List Event :=
  Event.samplePrep samplesFile qc ::
  Event.createDirs experiment ::
  registry.map (fun s =>
    Event.attachPaths s (demultiplexedPath experiment s)
      (trimmedPath experiment s))

/-- Lines 116-121: genome-file preparation and the bowtie index build
(the latter inside `cd genomeDir`). -/
def midEvents (gbkfile experiment : String) : List Event :=
  [ Event.gbk2fna gbkfile "genome" (genomeDirOf experiment),
    Event.gbk2ftt gbkfile "genome" (genomeDirOf experiment),
    Event.bowtieBuild "genome" ]

/-- Lines 125-143: the per-sample loop — one `sampleSeg` per registry
entry, in registry order. -/
def loopEvents (experiment : String) (barcode_length : Nat)
    (disruption : Rat) (registry : List String) : List Event :=
  (registry.map (sampleSeg experiment barcode_length disruption)).flatten

/-- The collaborator-call trace of `main`, given the filename conversion
`convert` (`convert_to_filename`, from the `utils` module, not in src/)
and the ordered key list `registry` of the dictionary returned by
`sample_prep` (from the `demultiplex` module, not in src/; per the
sample-dictionary comment at lines 83-85, each entry's `name` field
equals its key).  Returns the events issued in order together with the
uncaught Python error, if one is raised. -/
def mainEvents (convert : String → String) (registry : List String)
    (a : Args) : List Event × Option PyErr :=
  let experiment := convert a.experiment
  let disruption := disruptionValue a.disruption
  let cfg : Bool × Nat := if a.nobarcodes then (false, 0) else (true, 4)
  let dem :=
    if a.nobarcodes then copyLoopEvents experiment a.input registry
    else ([Event.demultiplex a.input experiment], none)
  match dem.2 with
  | some e => (preEvents a.samplesFile experiment cfg.1 registry ++ dem.1,
      some e)
  | none =>
    (preEvents a.samplesFile experiment cfg.1 registry ++ dem.1 ++
      midEvents a.genome experiment ++
      loopEvents experiment cfg.2 disruption registry ++
      [Event.buildGeneTable "genome" experiment], none)

/-- External-collaborator failure model: run the calls in order and stop
at the first one the oracle fails (the exception propagates out of
`main`, which has no handler); returns the completed calls and the
failing one, if any. -/
def execTrace (fails : Event → Bool) : List Event → List Event × Option Event
  | [] => ([], none)
  | e :: rest =>
    if fails e then ([], some e)
    else
      let tail := execTrace fails rest
      (e :: tail.1, tail.2)

/-- Effect of one call on the set of trimmed fastq files on disk:
`trim_fastq` writes its output file, `os.remove` deletes its argument. -/
def applyEvent (fs : List String) : Event → List String
  | .trimFastq _ outPath _ _ => outPath :: fs
  | .removeFile p => fs.filter (fun q => q ≠ p)
  | _ => fs

/-- Trimmed fastq files on disk after a sequence of calls. -/
def trimmedFilesAfter (t : List Event) : List String :=
  t.foldl applyEvent []

/-- Process state needed by the `cd` context manager (lines 46-58): the
working directory, plus the home directory consulted by
`os.path.expanduser`. -/
structure Proc where
  cwd : String
  home : String
  deriving Repr, DecidableEq

/-- `os.path.expanduser`: expand a leading `~` to the home directory;
other paths are returned unchanged. -/
def expanduser (home p : String) : String :=
  if p = "~" then home
  else if p.startsWith "~/" then home ++ p.drop 1
  else p

/-- `cd.__enter__`: save `os.getcwd()` as `self.savedPath`, then
`os.chdir(self.newPath)` (the path was expanded in `__init__`). -/
def cdEnter (newPath : String) (s : Proc) : String × Proc :=
  (s.cwd, { s with cwd := expanduser s.home newPath })

/-- `cd.__exit__`: `os.chdir(self.savedPath)`, unconditionally — it runs
whether or not the body raised, and by returning `None` it lets a
body exception propagate. -/
def cdExit (savedPath : String) (s : Proc) : Proc :=
  { s with cwd := savedPath }

/-- `with cd(newPath): body` — enter, run the body (which may itself
move the working directory and may raise), then exit; a body error
propagates after `__exit__` has run. -/
def withCd {ε α : Type} (newPath : String)
    (body : Proc → Proc × Except ε α) (s : Proc) :
    Proc × Except ε α :=
  let entered := cdEnter newPath s
  let ran := body entered.2
  (cdExit entered.1 ran.1, ran.2)

/-- A fastq read record; sequence and quality are character lists. -/
structure ReadRecord where
  ident : String
  seq : List Char
  qual : List Char
  deriving Repr, DecidableEq

/-- Modelled from the spec: the per-read action of `trim_fastq` (§4.3
Trimmer; the `demultiplex` module implementing it is not in src/):
remove the first `barcode_length` bases and the corresponding quality
characters from the read. -/
def trimRead (barcode_length : Nat) (r : ReadRecord) : ReadRecord :=
  { r with seq := r.seq.drop barcode_length,
           qual := r.qual.drop barcode_length }

/-- Observer: the sample name and disruption fraction of a `mapGenes`
call, `none` on every other event. -/
def geneCallOf : Event → Option (String × Rat)
  | .mapGenes _ s d _ => some (s, d)
  | _ => none

/-- Events that write to the sample registry: its construction by
`sample_prep` and the caller's attachment of per-sample paths. -/
def mutatesRegistry : Event → Bool
  | .samplePrep _ _ => true
  | .attachPaths _ _ _ => true
  | _ => false

/-- Events that write the genome feature table (`gbk2ftt`). -/
def writesFeatureTable : Event → Bool
  | .gbk2ftt _ _ _ => true
  | _ => false

/-- The reads-directory normalization of lines 106-107: append a
trailing slash when the last character is not one. -/
def ensureSlash (x : String) : String :=
  if x.data.getLast? = some '/' then x else x ++ "/"

/-- A concrete argument record used by the closed evidence theorems. -/
def baseArgs : Args :=
  { input := "reads.fastq.gz", samplesFile := "samples.txt",
    experiment := "exp", genome := "genome.gbk",
    disruption := none, nobarcodes := false }

/-- Concrete run for the disruption-validation evidence: `-d 1.5`. -/
def c1Args : Args := { baseArgs with disruption := some (3 / 2) }

/-- Failure oracle making the aligner invocation fail for sampleA
(only). -/
def alignerFailsA : Event → Bool := fun e =>
  e == Event.bowtieMap "genome" "../sampleA_trimmed.fastq"
    "../sampleA_bowtie.txt"

/-- Failure oracle making the aligner invocation fail for sampleB
(only). -/
def alignerFailsB : Event → Bool := fun e =>
  e == Event.bowtieMap "genome" "../sampleB_trimmed.fastq"
    "../sampleB_bowtie.txt"

/-- Concrete `--nobarcodes` run with an empty `-i` argument. -/
def c10EmptyArgs : Args := { baseArgs with input := "", nobarcodes := true }

/-- Concrete `--nobarcodes` run with a slash-less `-i` argument. -/
def c10DirArgs : Args := { baseArgs with input := "mydir", nobarcodes := true }

/-! ### Structure of the `main` trace -/

theorem mainEvents_eq_barcoded (conv : String → String) (regs : List String)
    (a : Args) (h : a.nobarcodes = false) :
    mainEvents conv regs a =
      (preEvents a.samplesFile (conv a.experiment) true regs ++
        [Event.demultiplex a.input (conv a.experiment)] ++
        midEvents a.genome (conv a.experiment) ++
        loopEvents (conv a.experiment) 4 (disruptionValue a.disruption) regs ++
        [Event.buildGeneTable "genome" (conv a.experiment)], none) := by
  simp [mainEvents, h]

theorem mainEvents_eq_nobc_ok (conv : String → String) (regs : List String)
    (a : Args) (h : a.nobarcodes = true)
    (hc : (copyLoopEvents (conv a.experiment) a.input regs).2 = none) :
    mainEvents conv regs a =
      (preEvents a.samplesFile (conv a.experiment) false regs ++
        (copyLoopEvents (conv a.experiment) a.input regs).1 ++
        midEvents a.genome (conv a.experiment) ++
        loopEvents (conv a.experiment) 0 (disruptionValue a.disruption) regs ++
        [Event.buildGeneTable "genome" (conv a.experiment)], none) := by
  simp [mainEvents, h, hc]

theorem mainEvents_eq_nobc_err (conv : String → String) (regs : List String)
    (a : Args) (e : PyErr) (h : a.nobarcodes = true)
    (hc : (copyLoopEvents (conv a.experiment) a.input regs).2 = some e) :
    mainEvents conv regs a =
      (preEvents a.samplesFile (conv a.experiment) false regs ++
        (copyLoopEvents (conv a.experiment) a.input regs).1, some e) := by
  simp [mainEvents, h, hc]

theorem mem_preEvents {samplesFile experiment : String} {qc : Bool}
    {regs : List String} {e : Event}
    (h : e ∈ preEvents samplesFile experiment qc regs) :
    e = Event.samplePrep samplesFile qc ∨
    e = Event.createDirs experiment ∨
    ∃ s ∈ regs, e = Event.attachPaths s (demultiplexedPath experiment s)
      (trimmedPath experiment s) := by
  simp [preEvents] at h
  aesop

theorem mem_midEvents {gbkfile experiment : String} {e : Event}
    (h : e ∈ midEvents gbkfile experiment) :
    e = Event.gbk2fna gbkfile "genome" (genomeDirOf experiment) ∨
    e = Event.gbk2ftt gbkfile "genome" (genomeDirOf experiment) ∨
    e = Event.bowtieBuild "genome" := by
  simpa [midEvents] using h

theorem mem_sampleSeg {experiment : String} {bl : Nat} {d : Rat}
    {s : String} {e : Event} (h : e ∈ sampleSeg experiment bl d s) :
    e = Event.trimFastq (demultiplexedPath experiment s)
        (trimmedPath experiment s) s bl ∨
    e = Event.bowtieMap "genome" ("../" ++ s ++ "_trimmed.fastq")
        ("../" ++ s ++ "_bowtie.txt") ∨
    e = Event.removeFile (trimmedPath experiment s) ∨
    e = Event.mapSites (experiment ++ "/" ++ s ++ "_bowtie.txt") ∨
    e = Event.mapGenes "genome" s d experiment := by
  simpa [sampleSeg] using h

theorem mem_loopEvents {experiment : String} {bl : Nat} {d : Rat}
    {regs : List String} {e : Event} :
    e ∈ loopEvents experiment bl d regs ↔
      ∃ s ∈ regs, e ∈ sampleSeg experiment bl d s := by
  simp [loopEvents, List.mem_flatten]

theorem copyLoop_events {experiment : String} :
    ∀ (regs : List String) (reads : String) (e : Event),
      e ∈ (copyLoopEvents experiment reads regs).1 →
      ∃ src dst, e = Event.copyFile src dst := by
  intro regs
  induction regs with
  | nil => intro reads e h; simp [copyLoopEvents] at h
  | cons r rest ih =>
    intro reads e h
    rw [copyLoopEvents] at h
    cases hp : pyLastChar reads with
    | error er => rw [hp] at h; simp at h
    | ok c =>
      rw [hp] at h
      simp at h
      rcases h with h | h
      · exact ⟨_, _, h⟩
      · exact ih _ e h

/-! ### The failure executor -/

theorem execTrace_ok_eq (fails : Event → Bool) :
    ∀ l : List Event, (execTrace fails l).2 = none →
      (execTrace fails l).1 = l := by
  intro l
  induction l with
  | nil => intro _; rfl
  | cons e rest ih =>
    intro h
    by_cases hf : fails e
    · simp [execTrace, hf] at h
    · simp [execTrace, hf] at h ⊢
      exact ih h

theorem execTrace_split (fails : Event → Bool) :
    ∀ (l : List Event) (e : Event),
      (execTrace fails l).2 = some e →
      (∀ x ∈ (execTrace fails l).1, fails x = false) ∧ fails e = true ∧
        ∃ r, l = (execTrace fails l).1 ++ e :: r := by
  intro l
  induction l with
  | nil => intro e h; simp [execTrace] at h
  | cons x rest ih =>
    intro e h
    by_cases hf : fails x
    · have hx : execTrace fails (x :: rest) = ([], some x) := by
        simp [execTrace, hf]
      rw [hx] at h ⊢
      obtain rfl : x = e := by simpa using h
      exact ⟨by simp, hf, rest, rfl⟩
    · have hx : execTrace fails (x :: rest) =
          (x :: (execTrace fails rest).1, (execTrace fails rest).2) := by
        simp [execTrace, hf]
      rw [hx] at h ⊢
      dsimp only at h ⊢
      obtain ⟨h1, h2, r, h3⟩ := ih e h
      refine ⟨?_, h2, r, ?_⟩
      · intro y hy
        rcases List.mem_cons.1 hy with rfl | hy
        · simpa using hf
        · exact h1 y hy
      · rw [List.cons_append, ← h3]

theorem execTrace_decomp (fails : Event → Bool) (l : List Event) :
    ∃ r, l = (execTrace fails l).1 ++ r := by
  cases hf : (execTrace fails l).2 with
  | none => exact ⟨[], by simp [execTrace_ok_eq fails l hf]⟩
  | some e =>
    obtain ⟨_, _, r, hr⟩ := execTrace_split fails l e hf
    exact ⟨e :: r, hr⟩

/-! ### File-set semantics -/

theorem not_mem_applyEvent {p : String} {fs : List String} (e : Event)
    (hfs : p ∉ fs) (hno : ∀ i s n, e ≠ Event.trimFastq i p s n) :
    p ∉ applyEvent fs e := by
  cases e <;> try exact hfs
  case trimFastq i o s n =>
    intro hmem
    rcases List.mem_cons.1 hmem with rfl | hmem
    · exact hno i s n rfl
    · exact hfs hmem
  case removeFile q =>
    intro hmem
    exact hfs (List.mem_filter.1 hmem).1

theorem not_mem_foldl_applyEvent {p : String} :
    ∀ (t : List Event) (fs : List String), p ∉ fs →
      (∀ e ∈ t, ∀ i s n, e ≠ Event.trimFastq i p s n) →
      p ∉ t.foldl applyEvent fs := by
  intro t
  induction t with
  | nil => intro fs hfs _; simpa using hfs
  | cons e rest ih =>
    intro fs hfs hno
    rw [List.foldl_cons]
    exact ih (applyEvent fs e)
      (not_mem_applyEvent e hfs (hno e (List.mem_cons_self e rest)))
      (fun e' he' => hno e' (List.mem_cons_of_mem _ he'))

theorem not_mem_trimmedFilesAfter_split {p : String} {t₁ t₂ : List Event}
    (hno : ∀ e ∈ t₂, ∀ i s n, e ≠ Event.trimFastq i p s n) :
    p ∉ trimmedFilesAfter (t₁ ++ Event.removeFile p :: t₂) := by
  unfold trimmedFilesAfter
  rw [List.foldl_append, List.foldl_cons]
  apply not_mem_foldl_applyEvent
  · intro hmem
    have := (List.mem_filter.1 hmem).2
    simp at this
  · exact hno

/-! ### Gene-mapping calls in the trace -/

theorem filterMap_nil_of_none {α β : Type} {f : α → Option β} :
    ∀ l : List α, (∀ x ∈ l, f x = none) → l.filterMap f = [] := by
  intro l
  induction l with
  | nil => intro _; rfl
  | cons x xs ih =>
    intro h
    rw [List.filterMap_cons, h x (by simp)]
    exact ih (fun y hy => h y (by simp [hy]))

theorem loopEvents_cons (experiment : String) (bl : Nat) (d : Rat)
    (r : String) (rest : List String) :
    loopEvents experiment bl d (r :: rest) =
      sampleSeg experiment bl d r ++ loopEvents experiment bl d rest := by
  simp [loopEvents]

theorem filterMap_geneCallOf_sampleSeg (experiment : String) (bl : Nat)
    (d : Rat) (s : String) :
    (sampleSeg experiment bl d s).filterMap geneCallOf = [(s, d)] := rfl

theorem filterMap_geneCallOf_loopEvents (experiment : String) (bl : Nat)
    (d : Rat) :
    ∀ regs : List String,
      (loopEvents experiment bl d regs).filterMap geneCallOf =
        regs.map (fun s => (s, d)) := by
  intro regs
  induction regs with
  | nil => rfl
  | cons r rest ih =>
    rw [loopEvents_cons, List.filterMap_append, ih,
      filterMap_geneCallOf_sampleSeg]
    rfl

theorem filterMap_geneCallOf_pre (sf exp : String) (qc : Bool)
    (regs : List String) :
    (preEvents sf exp qc regs).filterMap geneCallOf = [] := by
  apply filterMap_nil_of_none
  intro e he
  rcases mem_preEvents he with rfl | rfl | ⟨s, _, rfl⟩ <;> rfl

theorem filterMap_geneCallOf_copy (exp reads : String) (regs : List String) :
    ((copyLoopEvents exp reads regs).1).filterMap geneCallOf = [] := by
  apply filterMap_nil_of_none
  intro e he
  obtain ⟨src, dst, rfl⟩ := copyLoop_events regs reads e he
  rfl

theorem mainEvents_geneCalls (conv : String → String) (regs : List String)
    (a : Args) (hok : (mainEvents conv regs a).2 = none) :
    (mainEvents conv regs a).1.filterMap geneCallOf =
      regs.map (fun s => (s, disruptionValue a.disruption)) := by
  by_cases hb : a.nobarcodes
  · cases hc : (copyLoopEvents (conv a.experiment) a.input regs).2 with
    | some e =>
      rw [mainEvents_eq_nobc_err conv regs a e hb hc] at hok
      simp at hok
    | none =>
      rw [mainEvents_eq_nobc_ok conv regs a hb hc]
      dsimp only
      rw [List.filterMap_append, List.filterMap_append,
        List.filterMap_append, List.filterMap_append,
        filterMap_geneCallOf_pre, filterMap_geneCallOf_copy,
        filterMap_geneCallOf_loopEvents]
      simp [midEvents, geneCallOf]
  · rw [mainEvents_eq_barcoded conv regs a (by simpa using hb)]
    dsimp only
    rw [List.filterMap_append, List.filterMap_append,
      List.filterMap_append, List.filterMap_append,
      filterMap_geneCallOf_pre, filterMap_geneCallOf_loopEvents]
    simp [midEvents, geneCallOf]

/-! ### Locating a sample's trimmed-file events in the trace -/

theorem trimmedPath_inj {experiment s s' : String}
    (h : trimmedPath experiment s = trimmedPath experiment s') : s = s' := by
  unfold trimmedPath at h
  have hd := congrArg String.data h
  simp only [String.data_append] at hd
  exact String.ext (List.append_cancel_left (List.append_cancel_right hd))

theorem append_cons_eq_of_not_mem {α : Type} {a : α} :
    ∀ {x₁ : List α} (y₁ x₂ y₂ : List α),
      x₁ ++ a :: y₁ = x₂ ++ a :: y₂ → a ∉ x₁ → a ∉ x₂ →
      x₁ = x₂ ∧ y₁ = y₂ := by
  intro x₁
  induction x₁ with
  | nil =>
    intro y₁ x₂ y₂ h h1 h2
    cases x₂ with
    | nil => simpa using h
    | cons b x₂ =>
      simp at h
      obtain ⟨rfl, -⟩ := h
      exact absurd (List.mem_cons_self _ _) h2
  | cons c x₁ ih =>
    intro y₁ x₂ y₂ h h1 h2
    cases x₂ with
    | nil =>
      simp at h
      obtain ⟨rfl, -⟩ := h
      exact absurd (List.mem_cons_self _ _) h1
    | cons b x₂ =>
      simp at h
      obtain ⟨rfl, h⟩ := h
      obtain ⟨h3, h4⟩ := ih y₁ x₂ y₂ h
        (fun hm => h1 (List.mem_cons_of_mem _ hm))
        (fun hm => h2 (List.mem_cons_of_mem _ hm))
      exact ⟨by rw [h3], h4⟩

theorem pre_no_file_events {sf exp : String} {qc : Bool}
    {regs : List String} :
    ∀ e ∈ preEvents sf exp qc regs,
      (∀ q, e ≠ Event.removeFile q) ∧
      (∀ i o s n, e ≠ Event.trimFastq i o s n) := by
  intro e he
  rcases mem_preEvents he with rfl | rfl | ⟨s, _, rfl⟩ <;>
    exact ⟨fun q h => by simp at h, fun i o s' n h => by simp at h⟩

theorem mid_no_file_events {gbk exp : String} :
    ∀ e ∈ midEvents gbk exp,
      (∀ q, e ≠ Event.removeFile q) ∧
      (∀ i o s n, e ≠ Event.trimFastq i o s n) := by
  intro e he
  rcases mem_midEvents he with rfl | rfl | rfl <;>
    exact ⟨fun q h => by simp at h, fun i o s' n h => by simp at h⟩

theorem copy_no_file_events {exp reads : String} {regs : List String} :
    ∀ e ∈ (copyLoopEvents exp reads regs).1,
      (∀ q, e ≠ Event.removeFile q) ∧
      (∀ i o s n, e ≠ Event.trimFastq i o s n) := by
  intro e he
  obtain ⟨src, dst, rfl⟩ := copyLoop_events regs reads e he
  exact ⟨fun q h => by simp at h, fun i o s' n h => by simp at h⟩

theorem demux_no_file_events {reads exp : String} :
    ∀ e ∈ [Event.demultiplex reads exp],
      (∀ q, e ≠ Event.removeFile q) ∧
      (∀ i o s n, e ≠ Event.trimFastq i o s n) := by
  intro e he
  rcases List.mem_singleton.1 he with rfl
  exact ⟨fun q h => by simp at h, fun i o s' n h => by simp at h⟩

/-- Per-sample events of samples other than `s` never mention sample
`s`'s trimmed-file path. -/
theorem loop_no_p_events {exp : String} {bl : Nat} {d : Rat}
    {l : List String} {s : String} (hs : s ∉ l) :
    ∀ e ∈ loopEvents exp bl d l,
      e ≠ Event.removeFile (trimmedPath exp s) ∧
      (∀ i s' n, e ≠ Event.trimFastq i (trimmedPath exp s) s' n) := by
  intro e he
  obtain ⟨s', hs', hseg⟩ := mem_loopEvents.1 he
  have hne : s' ≠ s := fun h => hs (h ▸ hs')
  have hpne : trimmedPath exp s' ≠ trimmedPath exp s :=
    fun h => hne (trimmedPath_inj h)
  rcases mem_sampleSeg hseg with rfl | rfl | rfl | rfl | rfl
  · refine ⟨fun h => by simp at h, fun i s'' n h => ?_⟩
    injection h with h1 h2 h3 h4
    exact hpne h2
  · exact ⟨fun h => by simp at h, fun i s'' n h => by simp at h⟩
  · refine ⟨fun h => ?_, fun i s'' n h => by simp at h⟩
    injection h with h1
    exact hpne h1
  · exact ⟨fun h => by simp at h, fun i s'' n h => by simp at h⟩
  · exact ⟨fun h => by simp at h, fun i s'' n h => by simp at h⟩

/-- Core of the cleanup argument: in a trace of the shape
`front ++ loop ++ [table]`, where `front` has no file events, every
split at the removal of sample `s`'s trimmed file has no trim of that
file after it. -/
theorem no_trim_after_remove_core (exp : String) (bl : Nat) (d : Rat)
    (front : List Event) (l₁ l₂ : List String) (s : String)
    (hs1 : s ∉ l₁) (hs2 : s ∉ l₂)
    (hfront : ∀ e ∈ front,
      (∀ q, e ≠ Event.removeFile q) ∧
      (∀ i o s' n, e ≠ Event.trimFastq i o s' n)) :
    ∀ u v,
      front ++ loopEvents exp bl d (l₁ ++ s :: l₂) ++
          [Event.buildGeneTable "genome" exp] =
        u ++ Event.removeFile (trimmedPath exp s) :: v →
      ∀ e ∈ v, ∀ i s' n,
        e ≠ Event.trimFastq i (trimmedPath exp s) s' n := by
  intro u v hsplit e hev i s' n
  have hregroup :
      front ++ loopEvents exp bl d (l₁ ++ s :: l₂) ++
          [Event.buildGeneTable "genome" exp] =
        (front ++ loopEvents exp bl d l₁ ++
          [Event.trimFastq (demultiplexedPath exp s) (trimmedPath exp s) s bl,
           Event.bowtieMap "genome" ("../" ++ s ++ "_trimmed.fastq")
             ("../" ++ s ++ "_bowtie.txt")]) ++
        Event.removeFile (trimmedPath exp s) ::
          ([Event.mapSites (exp ++ "/" ++ s ++ "_bowtie.txt"),
            Event.mapGenes "genome" s d exp] ++
            loopEvents exp bl d l₂ ++
            [Event.buildGeneTable "genome" exp]) := by
    simp [loopEvents, sampleSeg]
  have hrmF1 : Event.removeFile (trimmedPath exp s) ∉
      (front ++ loopEvents exp bl d l₁ ++
        [Event.trimFastq (demultiplexedPath exp s) (trimmedPath exp s) s bl,
         Event.bowtieMap "genome" ("../" ++ s ++ "_trimmed.fastq")
           ("../" ++ s ++ "_bowtie.txt")]) := by
    intro hmem
    rcases List.mem_append.1 hmem with hmem | hmem
    · rcases List.mem_append.1 hmem with hmem | hmem
      · exact (hfront _ hmem).1 _ rfl
      · exact (loop_no_p_events hs1 _ hmem).1 rfl
    · simp at hmem
  have hrmV : Event.removeFile (trimmedPath exp s) ∉ u := by
    intro hmem
    have hge : 0 < List.count (Event.removeFile (trimmedPath exp s)) u :=
      List.count_pos_iff.2 hmem
    have hcount := congrArg
      (List.count (Event.removeFile (trimmedPath exp s))) hsplit
    rw [hregroup] at hcount
    have hcF2 : (List.count (Event.removeFile (trimmedPath exp s))
        ([Event.mapSites (exp ++ "/" ++ s ++ "_bowtie.txt"),
          Event.mapGenes "genome" s d exp] ++
          loopEvents exp bl d l₂ ++
          [Event.buildGeneTable "genome" exp])) = 0 := by
      apply List.count_eq_zero.2
      intro hmem2
      rcases List.mem_append.1 hmem2 with hmem2 | hmem2
      · rcases List.mem_append.1 hmem2 with hmem2 | hmem2
        · simp at hmem2
        · exact (loop_no_p_events hs2 _ hmem2).1 rfl
      · simp at hmem2
    have hcF1 := List.count_eq_zero.2 hrmF1
    rw [List.count_append, List.count_cons_self, hcF1, hcF2,
      List.count_append, List.count_cons_self] at hcount
    omega
  have heq := append_cons_eq_of_not_mem v
    (front ++ loopEvents exp bl d l₁ ++
      [Event.trimFastq (demultiplexedPath exp s) (trimmedPath exp s) s bl,
       Event.bowtieMap "genome" ("../" ++ s ++ "_trimmed.fastq")
         ("../" ++ s ++ "_bowtie.txt")])
    ([Event.mapSites (exp ++ "/" ++ s ++ "_bowtie.txt"),
      Event.mapGenes "genome" s d exp] ++
      loopEvents exp bl d l₂ ++
      [Event.buildGeneTable "genome" exp])
    (hsplit.symm.trans hregroup) hrmV hrmF1
  intro hcontra
  rw [heq.2] at hev
  rcases List.mem_append.1 hev with hev | hev
  · rcases List.mem_append.1 hev with hev | hev
    · rw [hcontra] at hev; simp at hev
    · exact (loop_no_p_events hs2 _ hev).2 i s' n hcontra
  · rw [hcontra] at hev; simp at hev

/-- Any split of the full `main` trace at the removal of sample `s`'s
trimmed file has no trim of that file after it. -/
theorem no_trim_after_remove (conv : String → String) (regs : List String)
    (a : Args) (s : String) (hnd : regs.Nodup) (hs : s ∈ regs) :
    ∀ u v, (mainEvents conv regs a).1 =
        u ++ Event.removeFile (trimmedPath (conv a.experiment) s) :: v →
      ∀ e ∈ v, ∀ i s' n,
        e ≠ Event.trimFastq i (trimmedPath (conv a.experiment) s) s' n := by
  obtain ⟨l₁, l₂, rfl⟩ := List.append_of_mem hs
  have hs1 : s ∉ l₁ := fun hm =>
    (List.disjoint_of_nodup_append hnd) hm (List.mem_cons_self _ _)
  have hs2 : s ∉ l₂ :=
    (List.nodup_cons.1 (List.Nodup.of_append_right hnd)).1
  intro u v hsplit
  by_cases hb : a.nobarcodes
  · cases hc : (copyLoopEvents (conv a.experiment) a.input
        (l₁ ++ s :: l₂)).2 with
    | some e =>
      rw [mainEvents_eq_nobc_err conv _ a e hb hc] at hsplit
      dsimp only at hsplit
      exfalso
      have hmem : Event.removeFile (trimmedPath (conv a.experiment) s) ∈
          preEvents a.samplesFile (conv a.experiment) false (l₁ ++ s :: l₂) ++
            (copyLoopEvents (conv a.experiment) a.input (l₁ ++ s :: l₂)).1 := by
        rw [hsplit]
        simp
      rcases List.mem_append.1 hmem with hmem | hmem
      · exact (pre_no_file_events _ hmem).1 _ rfl
      · exact (copy_no_file_events _ hmem).1 _ rfl
    | none =>
      rw [mainEvents_eq_nobc_ok conv _ a hb hc] at hsplit
      dsimp only at hsplit
      refine no_trim_after_remove_core (conv a.experiment) 0
        (disruptionValue a.disruption)
        (preEvents a.samplesFile (conv a.experiment) false (l₁ ++ s :: l₂) ++
          (copyLoopEvents (conv a.experiment) a.input (l₁ ++ s :: l₂)).1 ++
          midEvents a.genome (conv a.experiment))
        l₁ l₂ s hs1 hs2 ?_ u v ?_
      · intro e he
        rcases List.mem_append.1 he with he | he
        · rcases List.mem_append.1 he with he | he
          · exact pre_no_file_events _ he
          · exact copy_no_file_events _ he
        · exact mid_no_file_events _ he
      · rw [← hsplit]
  · rw [mainEvents_eq_barcoded conv _ a (by simpa using hb)] at hsplit
    dsimp only at hsplit
    refine no_trim_after_remove_core (conv a.experiment) 4
      (disruptionValue a.disruption)
      (preEvents a.samplesFile (conv a.experiment) true (l₁ ++ s :: l₂) ++
        [Event.demultiplex a.input (conv a.experiment)] ++
        midEvents a.genome (conv a.experiment))
      l₁ l₂ s hs1 hs2 ?_ u v ?_
    · intro e he
      rcases List.mem_append.1 he with he | he
      · rcases List.mem_append.1 he with he | he
        · exact pre_no_file_events _ he
        · exact demux_no_file_events _ he
      · exact mid_no_file_events _ he
    · rw [← hsplit]

/-! ### The final-table call is unique and last -/

theorem mainEvents_ok_table (conv : String → String) (regs : List String)
    (a : Args) (hok : (mainEvents conv regs a).2 = none) :
    ∃ front, (mainEvents conv regs a).1 =
      front ++ [Event.buildGeneTable "genome" (conv a.experiment)] ∧
      Event.buildGeneTable "genome" (conv a.experiment) ∉ front := by
  by_cases hb : a.nobarcodes
  · cases hc : (copyLoopEvents (conv a.experiment) a.input regs).2 with
    | some e =>
      rw [mainEvents_eq_nobc_err conv regs a e hb hc] at hok
      simp at hok
    | none =>
      rw [mainEvents_eq_nobc_ok conv regs a hb hc]
      dsimp only
      refine ⟨preEvents a.samplesFile (conv a.experiment) false regs ++
        (copyLoopEvents (conv a.experiment) a.input regs).1 ++
        midEvents a.genome (conv a.experiment) ++
        loopEvents (conv a.experiment) 0 (disruptionValue a.disruption) regs,
        rfl, ?_⟩
      intro hmem
      rcases List.mem_append.1 hmem with hmem | hmem
      · rcases List.mem_append.1 hmem with hmem | hmem
        · rcases List.mem_append.1 hmem with hmem | hmem
          · rcases mem_preEvents hmem with h | h | ⟨s, _, h⟩ <;> simp at h
          · obtain ⟨src, dst, h⟩ := copyLoop_events regs a.input _ hmem
            simp at h
        · rcases mem_midEvents hmem with h | h | h <;> simp at h
      · obtain ⟨s, _, hseg⟩ := mem_loopEvents.1 hmem
        rcases mem_sampleSeg hseg with h | h | h | h | h <;> simp at h
  · rw [mainEvents_eq_barcoded conv regs a (by simpa using hb)]
    dsimp only
    refine ⟨preEvents a.samplesFile (conv a.experiment) true regs ++
      [Event.demultiplex a.input (conv a.experiment)] ++
      midEvents a.genome (conv a.experiment) ++
      loopEvents (conv a.experiment) 4 (disruptionValue a.disruption) regs,
      rfl, ?_⟩
    intro hmem
    rcases List.mem_append.1 hmem with hmem | hmem
    · rcases List.mem_append.1 hmem with hmem | hmem
      · rcases List.mem_append.1 hmem with hmem | hmem
        · rcases mem_preEvents hmem with h | h | ⟨s, _, h⟩ <;> simp at h
        · simp at hmem
      · rcases mem_midEvents hmem with h | h | h <;> simp at h
    · obtain ⟨s, _, hseg⟩ := mem_loopEvents.1 hmem
      rcases mem_sampleSeg hseg with h | h | h | h | h <;> simp at h

theorem mainEvents_err_no_table (conv : String → String) (regs : List String)
    (a : Args) (er : PyErr) (herr : (mainEvents conv regs a).2 = some er) :
    Event.buildGeneTable "genome" (conv a.experiment) ∉
      (mainEvents conv regs a).1 := by
  by_cases hb : a.nobarcodes
  · cases hc : (copyLoopEvents (conv a.experiment) a.input regs).2 with
    | none =>
      rw [mainEvents_eq_nobc_ok conv regs a hb hc] at herr
      simp at herr
    | some e2 =>
      rw [mainEvents_eq_nobc_err conv regs a e2 hb hc]
      dsimp only
      intro hmem
      rcases List.mem_append.1 hmem with hmem | hmem
      · rcases mem_preEvents hmem with h | h | ⟨s, _, h⟩ <;> simp at h
      · obtain ⟨src, dst, h⟩ := copyLoop_events regs a.input _ hmem
        simp at h
  · rw [mainEvents_eq_barcoded conv regs a (by simpa using hb)] at herr
    simp at herr

/-! ### Claim theorems -/

/-- C1: the disruption-fraction parameter is not validated.  Contrary to
the claim that a value outside [0.0, 1.0] raises a `ConfigurationError`
before any sample processing, a run with `-d 1.5` completes with no
error and passes 1.5 straight into the gene-mapping call (the TODO at
line 68 of `pyinseq.py` records the missing range check). -/
theorem C1_disruption_not_validated :
    (mainEvents id ["sampleA"] c1Args).2 = none ∧
    Event.mapGenes "genome" "sampleA" (3 / 2) "exp" ∈
      (mainEvents id ["sampleA"] c1Args).1 := by
  constructor
  · rfl
  · rw [mainEvents_eq_barcoded id ["sampleA"] c1Args rfl]
    dsimp only
    simp [c1Args, baseArgs, loopEvents, sampleSeg, disruptionValue]

/-- C2 counterexample: in a concrete two-sample run where sampleA's
aligner invocation fails, the pipeline does not continue with the
remaining sample and does not build the final table — sampleB's
trimming and gene mapping never run and `buildGeneTable` is never
called, refuting the claim that an aligner failure is fatal for that
sample only. -/
theorem C2_counterexample :
    (execTrace alignerFailsA
      (mainEvents id ["sampleA", "sampleB"] baseArgs).1).2 =
      some (Event.bowtieMap "genome" "../sampleA_trimmed.fastq"
        "../sampleA_bowtie.txt") ∧
    Event.trimFastq (demultiplexedPath "exp" "sampleB")
      (trimmedPath "exp" "sampleB") "sampleB" 4 ∉
      (execTrace alignerFailsA
        (mainEvents id ["sampleA", "sampleB"] baseArgs).1).1 ∧
    Event.mapGenes "genome" "sampleB" 1 "exp" ∉
      (execTrace alignerFailsA
        (mainEvents id ["sampleA", "sampleB"] baseArgs).1).1 ∧
    Event.buildGeneTable "genome" "exp" ∉
      (execTrace alignerFailsA
        (mainEvents id ["sampleA", "sampleB"] baseArgs).1).1 := by
  refine ⟨by decide, by decide, ?_, by decide⟩
  intro hmem
  have h2 : (execTrace alignerFailsA
      (mainEvents id ["sampleA", "sampleB"] baseArgs).1).1 =
      [Event.samplePrep "samples.txt" true, Event.createDirs "exp",
       Event.attachPaths "sampleA" (demultiplexedPath "exp" "sampleA")
         (trimmedPath "exp" "sampleA"),
       Event.attachPaths "sampleB" (demultiplexedPath "exp" "sampleB")
         (trimmedPath "exp" "sampleB"),
       Event.demultiplex "reads.fastq.gz" "exp",
       Event.gbk2fna "genome.gbk" "genome" (genomeDirOf "exp"),
       Event.gbk2ftt "genome.gbk" "genome" (genomeDirOf "exp"),
       Event.bowtieBuild "genome",
       Event.trimFastq (demultiplexedPath "exp" "sampleA")
         (trimmedPath "exp" "sampleA") "sampleA" 4] := by decide
  rw [h2] at hmem
  simp at hmem

/-- C2 (amended): when an external call fails for one sample, the
exception propagates and aborts the whole run — every call before the
failing one completed, nothing after it runs, and in particular the
final table is never built. -/
theorem C2_aligner_failure_aborts_run (conv : String → String)
    (regs : List String) (a : Args) (fails : Event → Bool) (e : Event)
    (hf : (execTrace fails (mainEvents conv regs a).1).2 = some e) :
    fails e = true ∧
    (∀ x ∈ (execTrace fails (mainEvents conv regs a).1).1,
      fails x = false) ∧
    (∃ r, (mainEvents conv regs a).1 =
      (execTrace fails (mainEvents conv regs a).1).1 ++ e :: r) ∧
    Event.buildGeneTable "genome" (conv a.experiment) ∉
      (execTrace fails (mainEvents conv regs a).1).1 := by
  obtain ⟨h1, h2, r, h3⟩ := execTrace_split fails _ e hf
  refine ⟨h2, h1, ⟨r, h3⟩, ?_⟩
  intro hmem
  cases hok : (mainEvents conv regs a).2 with
  | some er =>
    exact mainEvents_err_no_table conv regs a er hok
      (h3 ▸ List.mem_append.2 (Or.inl hmem))
  | none =>
    obtain ⟨front, hfront, hnot⟩ := mainEvents_ok_table conv regs a hok
    have hpre1 : (execTrace fails (mainEvents conv regs a).1).1 <+:
        (mainEvents conv regs a).1 := ⟨e :: r, h3.symm⟩
    have hpre2 : front <+: (mainEvents conv regs a).1 :=
      ⟨[Event.buildGeneTable "genome" (conv a.experiment)], hfront.symm⟩
    have hlen : (execTrace fails (mainEvents conv regs a).1).1.length ≤
        front.length := by
      have hl1 := congrArg List.length h3
      have hl2 := congrArg List.length hfront
      simp [List.length_append] at hl1 hl2
      omega
    exact hnot ((List.prefix_of_prefix_length_le hpre1 hpre2 hlen).subset
      hmem)

/-- C2 amended witness: in the concrete two-sample run whose first
aligner call fails, the final table is never built. -/
theorem C2_aligner_failure_aborts_run_witness :
    Event.buildGeneTable "genome" "exp" ∉
      (execTrace alignerFailsA
        (mainEvents id ["sampleA", "sampleB"] baseArgs).1).1 :=
  (C2_aligner_failure_aborts_run id ["sampleA", "sampleB"] baseArgs
    alignerFailsA
    (Event.bowtieMap "genome" "../sampleA_trimmed.fastq"
      "../sampleA_bowtie.txt")
    (by decide)).2.2.2

/-- C3: every sample whose trimmed-file removal has executed has its
trimmed fastq file off disk at every later point of the run, for every
failure pattern of the external calls — so a fatal error while
processing a later sample leaves no earlier sample's trimmed file
behind. -/
theorem C3_trimmed_file_cleanup (conv : String → String)
    (regs : List String) (a : Args) (fails : Event → Bool) (s : String)
    (hnd : regs.Nodup) (hs : s ∈ regs)
    (hrm : Event.removeFile (trimmedPath (conv a.experiment) s) ∈
      (execTrace fails (mainEvents conv regs a).1).1) :
    trimmedPath (conv a.experiment) s ∉
      trimmedFilesAfter (execTrace fails (mainEvents conv regs a).1).1 := by
  obtain ⟨t₁, t₂, hsplit⟩ := List.append_of_mem hrm
  obtain ⟨r, hr⟩ := execTrace_decomp fails (mainEvents conv regs a).1
  have hfull : (mainEvents conv regs a).1 =
      t₁ ++ Event.removeFile (trimmedPath (conv a.experiment) s) ::
        (t₂ ++ r) := by
    rw [hr, hsplit]
    simp
  have hno := no_trim_after_remove conv regs a s hnd hs t₁ (t₂ ++ r) hfull
  rw [hsplit]
  exact not_mem_trimmedFilesAfter_split
    (fun e he i s' n => hno e (List.mem_append.2 (Or.inl he)) i s' n)

/-- C3 witness: concrete two-sample run in which sampleB's aligner
fails; sampleA's trimmed file (whose removal had executed) is not on
disk. -/
theorem C3_trimmed_file_cleanup_witness :
    trimmedPath "exp" "sampleA" ∉
      trimmedFilesAfter (execTrace alignerFailsB
        (mainEvents id ["sampleA", "sampleB"] baseArgs).1).1 :=
  C3_trimmed_file_cleanup id ["sampleA", "sampleB"] baseArgs alignerFailsB
    "sampleA" (by decide) (by decide) (by decide)

/-- C8: the `cd` context manager restores the saved working directory
on exit for every body — also when the body raises, in which case the
error still propagates unchanged after the restore. -/
theorem C8_cd_restores_cwd {ε α : Type} (newPath : String)
    (body : Proc → Proc × Except ε α) (s : Proc) :
    ((withCd newPath body s).1).cwd = s.cwd ∧
    (withCd newPath body s).2 =
      (body { s with cwd := expanduser s.home newPath }).2 :=
  ⟨rfl, rfl⟩

/-- C9: when the `-d` flag is absent, the gene-mapping calls of a
completed run are exactly one per sample, in registry order, each with
disruption fraction exactly 1. -/
theorem C9_default_disruption_one (conv : String → String)
    (regs : List String) (a : Args) (hd : a.disruption = none)
    (hok : (mainEvents conv regs a).2 = none) :
    (mainEvents conv regs a).1.filterMap geneCallOf =
      regs.map (fun s => (s, (1 : Rat))) := by
  have h := mainEvents_geneCalls conv regs a hok
  rw [hd] at h
  simpa [disruptionValue] using h

/-- C9 witness: the single-sample default-arguments run maps genes for
sampleA with disruption fraction 1. -/
theorem C9_default_disruption_one_witness :
    (mainEvents id ["sampleA"] baseArgs).1.filterMap geneCallOf =
      [("sampleA", (1 : Rat))] :=
  C9_default_disruption_one id ["sampleA"] baseArgs rfl rfl

theorem loopEvents_append (exp : String) (bl : Nat) (d : Rat)
    (x y : List String) :
    loopEvents exp bl d (x ++ y) =
      loopEvents exp bl d x ++ loopEvents exp bl d y := by
  simp [loopEvents]

/-- C5: execution is sequential — in a completed run the gene-mapping
calls are exactly one per sample in registry order, the final table is
built exactly once, as the very last call, and for any two samples `b`
before `c` in the registry, the whole five-call block of `b` (trim,
align, remove, site-map, gene-map) sits contiguously before the whole
block of `c`. -/
theorem C5_sequential_execution (conv : String → String)
    (regs : List String) (a : Args)
    (hok : (mainEvents conv regs a).2 = none) :
    ((mainEvents conv regs a).1.filterMap geneCallOf =
      regs.map (fun s => (s, disruptionValue a.disruption))) ∧
    ((mainEvents conv regs a).1.getLast? =
      some (Event.buildGeneTable "genome" (conv a.experiment))) ∧
    ((mainEvents conv regs a).1.count
      (Event.buildGeneTable "genome" (conv a.experiment)) = 1) ∧
    (∀ l₁ b l₂ c l₃, regs = l₁ ++ b :: l₂ ++ c :: l₃ →
      ∃ u v w, (mainEvents conv regs a).1 =
        u ++ sampleSeg (conv a.experiment) (if a.nobarcodes then 0 else 4)
          (disruptionValue a.disruption) b ++
        v ++ sampleSeg (conv a.experiment) (if a.nobarcodes then 0 else 4)
          (disruptionValue a.disruption) c ++ w) := by
  obtain ⟨front, hfront, hnot⟩ := mainEvents_ok_table conv regs a hok
  refine ⟨mainEvents_geneCalls conv regs a hok, ?_, ?_, ?_⟩
  · rw [hfront]
    exact List.getLast?_concat _
  · rw [hfront, List.count_append, List.count_eq_zero.2 hnot]
    simp
  · intro l₁ b l₂ c l₃ hregs
    subst hregs
    by_cases hb : a.nobarcodes
    · cases hc : (copyLoopEvents (conv a.experiment) a.input
          (l₁ ++ b :: l₂ ++ c :: l₃)).2 with
      | some e =>
        rw [mainEvents_eq_nobc_err conv _ a e hb hc] at hok
        simp at hok
      | none =>
        rw [mainEvents_eq_nobc_ok conv _ a hb hc]
        dsimp only
        refine ⟨preEvents a.samplesFile (conv a.experiment) false
            (l₁ ++ b :: l₂ ++ c :: l₃) ++
          (copyLoopEvents (conv a.experiment) a.input
            (l₁ ++ b :: l₂ ++ c :: l₃)).1 ++
          midEvents a.genome (conv a.experiment) ++
          loopEvents (conv a.experiment) 0 (disruptionValue a.disruption) l₁,
          loopEvents (conv a.experiment) 0 (disruptionValue a.disruption) l₂,
          loopEvents (conv a.experiment) 0 (disruptionValue a.disruption) l₃ ++
            [Event.buildGeneTable "genome" (conv a.experiment)], ?_⟩
        simp [hb, loopEvents]
    · rw [mainEvents_eq_barcoded conv _ a (by simpa using hb)]
      dsimp only
      refine ⟨preEvents a.samplesFile (conv a.experiment) true
          (l₁ ++ b :: l₂ ++ c :: l₃) ++
        [Event.demultiplex a.input (conv a.experiment)] ++
        midEvents a.genome (conv a.experiment) ++
        loopEvents (conv a.experiment) 4 (disruptionValue a.disruption) l₁,
        loopEvents (conv a.experiment) 4 (disruptionValue a.disruption) l₂,
        loopEvents (conv a.experiment) 4 (disruptionValue a.disruption) l₃ ++
          [Event.buildGeneTable "genome" (conv a.experiment)], ?_⟩
      simp [hb, loopEvents]

/-- C5 witness: in a completed concrete two-sample run the final call
is the table build. -/
theorem C5_sequential_execution_witness :
    (mainEvents id ["sampleA", "sampleB"] baseArgs).1.getLast? =
      some (Event.buildGeneTable "genome" "exp") :=
  (C5_sequential_execution id ["sampleA", "sampleB"] baseArgs rfl).2.1

/-- C7: loading the sample list is the first collaborator call; the
experiment directory structure is created next, and only then does the
caller attach the demultiplexed and trimmed paths to each sample entry,
before any other step runs. -/
theorem C7_sample_load_then_path_attachment (conv : String → String)
    (regs : List String) (a : Args) :
    ∃ rest, (mainEvents conv regs a).1 =
      Event.samplePrep a.samplesFile (if a.nobarcodes then false else true) ::
      Event.createDirs (conv a.experiment) ::
      ((regs.map fun s => Event.attachPaths s
        (demultiplexedPath (conv a.experiment) s)
        (trimmedPath (conv a.experiment) s)) ++ rest) := by
  by_cases hb : a.nobarcodes
  · cases hc : (copyLoopEvents (conv a.experiment) a.input regs).2 with
    | some e =>
      rw [mainEvents_eq_nobc_err conv regs a e hb hc]
      exact ⟨(copyLoopEvents (conv a.experiment) a.input regs).1,
        by simp [preEvents, hb]⟩
    | none =>
      rw [mainEvents_eq_nobc_ok conv regs a hb hc]
      exact ⟨(copyLoopEvents (conv a.experiment) a.input regs).1 ++
        midEvents a.genome (conv a.experiment) ++
        loopEvents (conv a.experiment) 0 (disruptionValue a.disruption) regs ++
        [Event.buildGeneTable "genome" (conv a.experiment)],
        by simp [preEvents, hb]⟩
  · rw [mainEvents_eq_barcoded conv regs a (by simpa using hb)]
    exact ⟨[Event.demultiplex a.input (conv a.experiment)] ++
      midEvents a.genome (conv a.experiment) ++
      loopEvents (conv a.experiment) 4 (disruptionValue a.disruption) regs ++
      [Event.buildGeneTable "genome" (conv a.experiment)],
      by simp [preEvents, hb]⟩

theorem samplePrep_not_mem_tail {sf exp : String} {qc : Bool}
    {regs : List String} :
    Event.samplePrep sf qc ∉
      Event.createDirs exp ::
        regs.map (fun s => Event.attachPaths s (demultiplexedPath exp s)
          (trimmedPath exp s)) := by
  intro h
  rcases List.mem_cons.1 h with h | h
  · simp at h
  · simp [List.mem_map] at h

theorem samplePrep_not_mem_copy {exp reads sf : String} {qc : Bool}
    {regs : List String} :
    Event.samplePrep sf qc ∉ (copyLoopEvents exp reads regs).1 := by
  intro h
  obtain ⟨src, dst, he⟩ := copyLoop_events regs reads _ h
  simp at he

theorem samplePrep_not_mem_mid {gbk exp sf : String} {qc : Bool} :
    Event.samplePrep sf qc ∉ midEvents gbk exp := by
  intro h
  rcases mem_midEvents h with h | h | h <;> simp at h

theorem samplePrep_not_mem_loop {exp sf : String} {bl : Nat} {d : Rat}
    {regs : List String} {qc : Bool} :
    Event.samplePrep sf qc ∉ loopEvents exp bl d regs := by
  intro h
  obtain ⟨s, _, hseg⟩ := mem_loopEvents.1 h
  rcases mem_sampleSeg hseg with h | h | h | h | h <;> simp at h

theorem gbk2ftt_not_mem_pre {sf exp g o gd : String} {qc : Bool}
    {regs : List String} :
    Event.gbk2ftt g o gd ∉ preEvents sf exp qc regs := by
  intro h
  rcases mem_preEvents h with h | h | ⟨s, _, h⟩ <;> simp at h

theorem gbk2ftt_not_mem_copy {exp reads g o gd : String}
    {regs : List String} :
    Event.gbk2ftt g o gd ∉ (copyLoopEvents exp reads regs).1 := by
  intro h
  obtain ⟨src, dst, he⟩ := copyLoop_events regs reads _ h
  simp at he

theorem gbk2ftt_not_mem_loop {exp g o gd : String} {bl : Nat} {d : Rat}
    {regs : List String} :
    Event.gbk2ftt g o gd ∉ loopEvents exp bl d regs := by
  intro h
  obtain ⟨s, _, hseg⟩ := mem_loopEvents.1 h
  rcases mem_sampleSeg hseg with h | h | h | h | h <;> simp at h

theorem loop_and_table_no_writes {exp : String} {bl : Nat} {d : Rat}
    {regs : List String} {o x : String} :
    ∀ e ∈ loopEvents exp bl d regs ++ [Event.buildGeneTable o x],
      mutatesRegistry e = false ∧ writesFeatureTable e = false := by
  intro e he
  rcases List.mem_append.1 he with he | he
  · obtain ⟨s, _, hseg⟩ := mem_loopEvents.1 he
    rcases mem_sampleSeg hseg with rfl | rfl | rfl | rfl | rfl <;>
      exact ⟨rfl, rfl⟩
  · rcases List.mem_singleton.1 he with rfl
    exact ⟨rfl, rfl⟩

/-- C6: the sample registry and the genome feature table are each
constructed exactly once (`sample_prep`, `gbk2ftt`), both before the
per-sample loop, and no call of the loop or of the final table build
writes to either. -/
theorem C6_registry_feature_table_readonly (conv : String → String)
    (regs : List String) (a : Args)
    (hok : (mainEvents conv regs a).2 = none) :
    ((mainEvents conv regs a).1.count
      (Event.samplePrep a.samplesFile
        (if a.nobarcodes then false else true)) = 1) ∧
    ((mainEvents conv regs a).1.count
      (Event.gbk2ftt a.genome "genome"
        (genomeDirOf (conv a.experiment))) = 1) ∧
    ∃ front,
      (mainEvents conv regs a).1 =
        front ++
        loopEvents (conv a.experiment) (if a.nobarcodes then 0 else 4)
          (disruptionValue a.disruption) regs ++
        [Event.buildGeneTable "genome" (conv a.experiment)] ∧
      Event.samplePrep a.samplesFile
        (if a.nobarcodes then false else true) ∈ front ∧
      Event.gbk2ftt a.genome "genome"
        (genomeDirOf (conv a.experiment)) ∈ front ∧
      (∀ e ∈ loopEvents (conv a.experiment) (if a.nobarcodes then 0 else 4)
          (disruptionValue a.disruption) regs ++
          [Event.buildGeneTable "genome" (conv a.experiment)],
        mutatesRegistry e = false ∧ writesFeatureTable e = false) := by
  by_cases hb : a.nobarcodes
  · cases hc : (copyLoopEvents (conv a.experiment) a.input regs).2 with
    | some e =>
      rw [mainEvents_eq_nobc_err conv regs a e hb hc] at hok
      simp at hok
    | none =>
      rw [mainEvents_eq_nobc_ok conv regs a hb hc]
      dsimp only
      have hqc : (if a.nobarcodes then false else true) = false := by
        simp [hb]
      have hbl : ((if a.nobarcodes then 0 else 4) : Nat) = 0 := by
        simp [hb]
      rw [hqc, hbl]
      have h1 : (preEvents a.samplesFile (conv a.experiment) false
          regs).count (Event.samplePrep a.samplesFile false) = 1 := by
        unfold preEvents
        rw [List.count_cons_self, List.count_eq_zero.2 samplePrep_not_mem_tail]
      refine ⟨?_, ?_,
        preEvents a.samplesFile (conv a.experiment) false regs ++
          (copyLoopEvents (conv a.experiment) a.input regs).1 ++
          midEvents a.genome (conv a.experiment),
        rfl,
        List.mem_append.2 (Or.inl (List.mem_append.2 (Or.inl
          (by simp [preEvents])))),
        List.mem_append.2 (Or.inr (by simp [midEvents])),
        loop_and_table_no_writes⟩
      · rw [List.count_append, List.count_append, List.count_append,
          List.count_append, h1,
          List.count_eq_zero.2 samplePrep_not_mem_copy,
          List.count_eq_zero.2 samplePrep_not_mem_mid,
          List.count_eq_zero.2 samplePrep_not_mem_loop,
          List.count_eq_zero.2 (by simp :
            Event.samplePrep a.samplesFile false ∉
              [Event.buildGeneTable "genome" (conv a.experiment)])]
      · rw [List.count_append, List.count_append, List.count_append,
          List.count_append,
          List.count_eq_zero.2 gbk2ftt_not_mem_pre,
          List.count_eq_zero.2 gbk2ftt_not_mem_copy,
          List.count_eq_zero.2 gbk2ftt_not_mem_loop,
          List.count_eq_zero.2 (by simp :
            Event.gbk2ftt a.genome "genome" (genomeDirOf (conv a.experiment)) ∉
              [Event.buildGeneTable "genome" (conv a.experiment)])]
        simp [midEvents, List.count_cons]
  · have hb' : a.nobarcodes = false := by simpa using hb
    rw [mainEvents_eq_barcoded conv regs a hb']
    dsimp only
    have hqc : (if a.nobarcodes then false else true) = true := by
      simp [hb']
    have hbl : ((if a.nobarcodes then 0 else 4) : Nat) = 4 := by
      simp [hb']
    rw [hqc, hbl]
    have h1 : (preEvents a.samplesFile (conv a.experiment) true
        regs).count (Event.samplePrep a.samplesFile true) = 1 := by
      unfold preEvents
      rw [List.count_cons_self, List.count_eq_zero.2 samplePrep_not_mem_tail]
    refine ⟨?_, ?_,
      preEvents a.samplesFile (conv a.experiment) true regs ++
        [Event.demultiplex a.input (conv a.experiment)] ++
        midEvents a.genome (conv a.experiment),
      rfl,
      List.mem_append.2 (Or.inl (List.mem_append.2 (Or.inl
        (by simp [preEvents])))),
      List.mem_append.2 (Or.inr (by simp [midEvents])),
      loop_and_table_no_writes⟩
    · rw [List.count_append, List.count_append, List.count_append,
        List.count_append, h1,
        List.count_eq_zero.2 (by simp :
          Event.samplePrep a.samplesFile true ∉
            [Event.demultiplex a.input (conv a.experiment)]),
        List.count_eq_zero.2 samplePrep_not_mem_mid,
        List.count_eq_zero.2 samplePrep_not_mem_loop,
        List.count_eq_zero.2 (by simp :
          Event.samplePrep a.samplesFile true ∉
            [Event.buildGeneTable "genome" (conv a.experiment)])]
    · rw [List.count_append, List.count_append, List.count_append,
        List.count_append,
        List.count_eq_zero.2 gbk2ftt_not_mem_pre,
        List.count_eq_zero.2 (by simp :
          Event.gbk2ftt a.genome "genome" (genomeDirOf (conv a.experiment)) ∉
            [Event.demultiplex a.input (conv a.experiment)]),
        List.count_eq_zero.2 gbk2ftt_not_mem_loop,
        List.count_eq_zero.2 (by simp :
          Event.gbk2ftt a.genome "genome" (genomeDirOf (conv a.experiment)) ∉
            [Event.buildGeneTable "genome" (conv a.experiment)])]
      simp [midEvents, List.count_cons]

/-- C6 witness: in a completed concrete run the sample registry is
constructed exactly once. -/
theorem C6_registry_feature_table_readonly_witness :
    (mainEvents id ["sampleA"] baseArgs).1.count
      (Event.samplePrep "samples.txt"
        (if baseArgs.nobarcodes then false else true)) = 1 :=
  (C6_registry_feature_table_readonly id ["sampleA"] baseArgs rfl).1

theorem trim_events_use_bl {exp : String} {bl : Nat} {d : Rat}
    {regs : List String} {i o s : String} {n : Nat}
    (h : Event.trimFastq i o s n ∈ loopEvents exp bl d regs) : n = bl := by
  obtain ⟨s', _, hseg⟩ := mem_loopEvents.1 h
  rcases mem_sampleSeg hseg with h | h | h | h | h
  · injection h with h1 h2 h3 h4
  all_goals simp at h

theorem seg_trim_mem_loop {exp : String} {bl : Nat} {d : Rat}
    {regs : List String} {s : String} (hs : s ∈ regs) :
    Event.trimFastq (demultiplexedPath exp s) (trimmedPath exp s) s bl ∈
      loopEvents exp bl d regs :=
  mem_loopEvents.2 ⟨s, hs, by simp [sampleSeg]⟩

theorem copyLoop_complete {exp : String} :
    ∀ (regs : List String) (reads : String),
      (copyLoopEvents exp reads regs).2 = none →
      ∀ s ∈ regs, ∃ src, Event.copyFile src (demultiplexedPath exp s) ∈
        (copyLoopEvents exp reads regs).1 := by
  intro regs
  induction regs with
  | nil => intro reads _ s hs; simp at hs
  | cons r rest ih =>
    intro reads hok s hs
    rw [copyLoopEvents] at hok ⊢
    cases hp : pyLastChar reads with
    | error er =>
      rw [hp] at hok
      simp at hok
    | ok c =>
      rw [hp] at hok
      dsimp only at hok ⊢
      rcases List.mem_cons.1 hs with rfl | hs
      · exact ⟨_, List.mem_cons_self _ _⟩
      · obtain ⟨src, hsrc⟩ := ih _ hok s hs
        exact ⟨src, List.mem_cons_of_mem _ hsrc⟩

/-- C4: without `--nobarcodes` the run uses barcode QC and the single
hard-coded barcode length 4, demultiplexes, copies nothing, and passes
4 to every trimmer call; with `--nobarcodes` QC is off, no
demultiplexing happens, each sample's reads file is copied to its
per-sample path instead, every trimmer call receives length 0, and
trimming with length 0 leaves a read unchanged. -/
theorem C4_barcode_configuration (conv : String → String)
    (regs : List String) (a : Args) :
    (a.nobarcodes = false →
      Event.samplePrep a.samplesFile true ∈ (mainEvents conv regs a).1 ∧
      Event.demultiplex a.input (conv a.experiment) ∈
        (mainEvents conv regs a).1 ∧
      (∀ e ∈ (mainEvents conv regs a).1, ∀ i o s n,
        e = Event.trimFastq i o s n → n = 4) ∧
      (∀ e ∈ (mainEvents conv regs a).1, ∀ src dst,
        e ≠ Event.copyFile src dst) ∧
      (∀ s ∈ regs,
        Event.trimFastq (demultiplexedPath (conv a.experiment) s)
          (trimmedPath (conv a.experiment) s) s 4 ∈
          (mainEvents conv regs a).1)) ∧
    (a.nobarcodes = true →
      Event.samplePrep a.samplesFile false ∈ (mainEvents conv regs a).1 ∧
      (∀ e ∈ (mainEvents conv regs a).1, ∀ rd x,
        e ≠ Event.demultiplex rd x) ∧
      (∀ e ∈ (mainEvents conv regs a).1, ∀ i o s n,
        e = Event.trimFastq i o s n → n = 0) ∧
      ((mainEvents conv regs a).2 = none → ∀ s ∈ regs,
        (∃ src, Event.copyFile src
          (demultiplexedPath (conv a.experiment) s) ∈
          (mainEvents conv regs a).1) ∧
        Event.trimFastq (demultiplexedPath (conv a.experiment) s)
          (trimmedPath (conv a.experiment) s) s 0 ∈
          (mainEvents conv regs a).1)) ∧
    (∀ r : ReadRecord, trimRead 0 r = r) := by
  refine ⟨?_, ?_, ?_⟩
  · intro hb
    rw [mainEvents_eq_barcoded conv regs a hb]
    dsimp only
    refine ⟨by simp [preEvents], by simp, ?_, ?_, ?_⟩
    · intro e he i o s n hety
      subst hety
      rcases List.mem_append.1 he with he | he
      · rcases List.mem_append.1 he with he | he
        · rcases List.mem_append.1 he with he | he
          · rcases List.mem_append.1 he with he | he
            · exact absurd rfl ((pre_no_file_events _ he).2 i o s n)
            · exact absurd rfl ((demux_no_file_events _ he).2 i o s n)
          · exact absurd rfl ((mid_no_file_events _ he).2 i o s n)
        · exact trim_events_use_bl he
      · simp at he
    · intro e he src dst hety
      subst hety
      rcases List.mem_append.1 he with he | he
      · rcases List.mem_append.1 he with he | he
        · rcases List.mem_append.1 he with he | he
          · rcases List.mem_append.1 he with he | he
            · rcases mem_preEvents he with h | h | ⟨s, _, h⟩ <;> simp at h
            · simp at he
          · rcases mem_midEvents he with h | h | h <;> simp at h
        · obtain ⟨s', _, hseg⟩ := mem_loopEvents.1 he
          rcases mem_sampleSeg hseg with h | h | h | h | h <;> simp at h
      · simp at he
    · intro s hs
      exact List.mem_append.2 (Or.inl (List.mem_append.2 (Or.inr
        (seg_trim_mem_loop hs))))
  · intro hb
    cases hc : (copyLoopEvents (conv a.experiment) a.input regs).2 with
    | some e2 =>
      rw [mainEvents_eq_nobc_err conv regs a e2 hb hc]
      dsimp only
      refine ⟨by simp [preEvents], ?_, ?_, ?_⟩
      · intro e he rd x hety
        subst hety
        rcases List.mem_append.1 he with he | he
        · rcases mem_preEvents he with h | h | ⟨s, _, h⟩ <;> simp at h
        · obtain ⟨src, dst, h⟩ := copyLoop_events regs a.input _ he
          simp at h
      · intro e he i o s n hety
        subst hety
        rcases List.mem_append.1 he with he | he
        · exact absurd rfl ((pre_no_file_events _ he).2 i o s n)
        · exact absurd rfl ((copy_no_file_events _ he).2 i o s n)
      · intro hok
        simp at hok
    | none =>
      rw [mainEvents_eq_nobc_ok conv regs a hb hc]
      dsimp only
      refine ⟨by simp [preEvents], ?_, ?_, ?_⟩
      · intro e he rd x hety
        subst hety
        rcases List.mem_append.1 he with he | he
        · rcases List.mem_append.1 he with he | he
          · rcases List.mem_append.1 he with he | he
            · rcases List.mem_append.1 he with he | he
              · rcases mem_preEvents he with h | h | ⟨s, _, h⟩ <;> simp at h
              · obtain ⟨src, dst, h⟩ := copyLoop_events regs a.input _ he
                simp at h
            · rcases mem_midEvents he with h | h | h <;> simp at h
          · obtain ⟨s', _, hseg⟩ := mem_loopEvents.1 he
            rcases mem_sampleSeg hseg with h | h | h | h | h <;> simp at h
        · simp at he
      · intro e he i o s n hety
        subst hety
        rcases List.mem_append.1 he with he | he
        · rcases List.mem_append.1 he with he | he
          · rcases List.mem_append.1 he with he | he
            · rcases List.mem_append.1 he with he | he
              · exact absurd rfl ((pre_no_file_events _ he).2 i o s n)
              · exact absurd rfl ((copy_no_file_events _ he).2 i o s n)
            · exact absurd rfl ((mid_no_file_events _ he).2 i o s n)
          · exact trim_events_use_bl he
        · simp at he
      · intro _ s hs
        constructor
        · obtain ⟨src, hsrc⟩ := copyLoop_complete regs a.input hc s hs
          exact ⟨src, List.mem_append.2 (Or.inl (List.mem_append.2 (Or.inl
            (List.mem_append.2 (Or.inl (List.mem_append.2
              (Or.inr hsrc)))))))⟩
        · exact List.mem_append.2 (Or.inl (List.mem_append.2 (Or.inr
            (seg_trim_mem_loop hs))))
  · intro r
    cases r
    simp [trimRead]

/-- C4 witness: in a concrete barcoded run, demultiplexing happens and
the trimmer for sampleA receives barcode length 4; trimming a concrete
read with length 0 returns it unchanged. -/
theorem C4_barcode_configuration_witness :
    Event.demultiplex "reads.fastq.gz" "exp" ∈
      (mainEvents id ["sampleA"] baseArgs).1 ∧
    Event.trimFastq (demultiplexedPath "exp" "sampleA")
      (trimmedPath "exp" "sampleA") "sampleA" 4 ∈
      (mainEvents id ["sampleA"] baseArgs).1 ∧
    trimRead 0 ⟨"r1", ['A', 'C'], ['F', 'F']⟩ =
      (⟨"r1", ['A', 'C'], ['F', 'F']⟩ : ReadRecord) := by
  have h := C4_barcode_configuration id ["sampleA"] baseArgs
  exact ⟨(h.1 rfl).2.1, (h.1 rfl).2.2.2.2 "sampleA" (by decide),
    h.2.2 ⟨"r1", ['A', 'C'], ['F', 'F']⟩⟩

theorem ensureSlash_ne_empty (x : String) : ensureSlash x ≠ "" := by
  unfold ensureSlash
  split
  · intro hx
    rename_i hgl
    rw [hx] at hgl
    simp at hgl
  · intro hx
    have h2 := congrArg String.length hx
    rw [String.length_append,
      show ("/" : String).length = 1 from rfl,
      show ("" : String).length = 0 from rfl] at h2
    omega

theorem getLastQ_append_slash (x : String) :
    (x ++ "/").data.getLast? = some '/' := by
  rw [show (x ++ "/").data = x.data ++ ['/'] by rw [String.data_append]]
  exact List.getLast?_concat _

theorem ensureSlash_last (x : String) :
    (ensureSlash x).data.getLast? = some '/' := by
  unfold ensureSlash
  split
  · assumption
  · exact getLastQ_append_slash x

theorem ensureSlash_idem (x : String) :
    ensureSlash (ensureSlash x) = ensureSlash x := by
  have h := ensureSlash_last x
  unfold ensureSlash at h ⊢
  rw [if_pos h]

theorem copyLoop_src (exp : String) :
    ∀ (regs : List String) (reads : String), reads ≠ "" →
      copyLoopEvents exp reads regs =
        (regs.map (fun s => Event.copyFile
          (ensureSlash reads ++ s ++ ".fastq.gz")
          (demultiplexedPath exp s)), none) := by
  intro regs
  induction regs with
  | nil => intro reads _; rfl
  | cons r rest ih =>
    intro reads h
    obtain ⟨c, hc⟩ : ∃ c, reads.data.getLast? = some c := by
      cases hgl : reads.data.getLast? with
      | some c => exact ⟨c, rfl⟩
      | none =>
        exfalso
        apply h
        have hdata : reads.data = [] := by simpa using hgl
        exact String.ext hdata
    have hp : pyLastChar reads = .ok c := by simp [pyLastChar, hc]
    rw [copyLoopEvents, hp]
    dsimp only
    have hre : (if c ≠ '/' then reads ++ "/" else reads) =
        ensureSlash reads := by
      by_cases hcs : c = '/'
      · simp [hcs, ensureSlash, hc]
      · simp [hcs, ensureSlash, hc]
    rw [hre, ih (ensureSlash reads) (ensureSlash_ne_empty reads)]
    simp [ensureSlash_idem]

/-- C10: with `--nobarcodes`, an empty `-i` argument makes the run die
with an uncaught `IndexError` while normalizing the reads directory,
before any sample file is copied; with a non-empty `-i` argument a
trailing slash is appended when missing and every sample's file is
copied from `<reads>/<sample>.fastq.gz` to its per-sample path. -/
theorem C10_reads_path_handling (conv : String → String)
    (regs : List String) (a : Args) (s₀ : String) (rest : List String)
    (hb : a.nobarcodes = true) (hr : regs = s₀ :: rest) :
    (a.input = "" →
      (mainEvents conv regs a).2 = some PyErr.indexError ∧
      ∀ e ∈ (mainEvents conv regs a).1, ∀ src dst,
        e ≠ Event.copyFile src dst) ∧
    (a.input ≠ "" →
      (mainEvents conv regs a).2 = none ∧
      (∀ s ∈ regs, Event.copyFile
        (ensureSlash a.input ++ s ++ ".fastq.gz")
        (demultiplexedPath (conv a.experiment) s) ∈
        (mainEvents conv regs a).1) ∧
      (∀ e ∈ (mainEvents conv regs a).1, ∀ src dst,
        e = Event.copyFile src dst →
        ∃ s ∈ regs, src = ensureSlash a.input ++ s ++ ".fastq.gz" ∧
          dst = demultiplexedPath (conv a.experiment) s)) := by
  subst hr
  constructor
  · intro hi
    have hcl : copyLoopEvents (conv a.experiment) a.input (s₀ :: rest) =
        ([], some PyErr.indexError) := by
      rw [hi]
      rfl
    have herr := mainEvents_eq_nobc_err conv (s₀ :: rest) a
      PyErr.indexError hb (by rw [hcl])
    constructor
    · rw [herr]
    · rw [herr]
      dsimp only
      intro e he src dst hety
      subst hety
      rw [hcl] at he
      simp only [List.append_nil] at he
      rcases mem_preEvents he with h | h | ⟨s, _, h⟩ <;> simp at h
  · intro hi
    have hcl := copyLoop_src (conv a.experiment) (s₀ :: rest) a.input hi
    have hc2 : (copyLoopEvents (conv a.experiment) a.input
        (s₀ :: rest)).2 = none := by rw [hcl]
    have hokeq := mainEvents_eq_nobc_ok conv (s₀ :: rest) a hb hc2
    refine ⟨by rw [hokeq], ?_, ?_⟩
    · intro s hs
      rw [hokeq]
      dsimp only
      refine List.mem_append.2 (Or.inl (List.mem_append.2 (Or.inl
        (List.mem_append.2 (Or.inl (List.mem_append.2 (Or.inr ?_)))))))
      rw [hcl]
      exact List.mem_map.2 ⟨s, hs, rfl⟩
    · intro e he src dst hety
      subst hety
      rw [hokeq] at he
      dsimp only at he
      rcases List.mem_append.1 he with he | he
      · rcases List.mem_append.1 he with he | he
        · rcases List.mem_append.1 he with he | he
          · rcases List.mem_append.1 he with he | he
            · rcases mem_preEvents he with h | h | ⟨s, _, h⟩ <;> simp at h
            · rw [hcl] at he
              obtain ⟨s, hs, hes⟩ := List.mem_map.1 he
              injection hes with h1 h2
              exact ⟨s, hs, h1.symm, h2.symm⟩
          · rcases mem_midEvents he with h | h | h <;> simp at h
        · obtain ⟨s', _, hseg⟩ := mem_loopEvents.1 he
          rcases mem_sampleSeg hseg with h | h | h | h | h <;> simp at h
      · simp at he

/-- C10 witness: the empty-input `--nobarcodes` run raises
`IndexError`; the `-i mydir` run copies sampleA's reads from
`mydir/sampleA.fastq.gz`. -/
theorem C10_reads_path_handling_witness :
    (mainEvents id ["sampleA"] c10EmptyArgs).2 = some PyErr.indexError ∧
    Event.copyFile "mydir/sampleA.fastq.gz"
      (demultiplexedPath "exp" "sampleA") ∈
      (mainEvents id ["sampleA"] c10DirArgs).1 := by
  constructor
  · exact ((C10_reads_path_handling id ["sampleA"] c10EmptyArgs
      "sampleA" [] rfl rfl).1 rfl).1
  · have h := ((C10_reads_path_handling id ["sampleA"] c10DirArgs
      "sampleA" [] rfl rfl).2 (by decide)).2.1 "sampleA" (by decide)
    have he : Event.copyFile
        (ensureSlash c10DirArgs.input ++ "sampleA" ++ ".fastq.gz")
        (demultiplexedPath (id c10DirArgs.experiment) "sampleA") =
        Event.copyFile "mydir/sampleA.fastq.gz"
          (demultiplexedPath "exp" "sampleA") := by decide
    exact he ▸ h

end Pyinseq
